import Mathlib

/-!
# Verification of the `sfs` spectrum engine

A shallow embedding of the core data model and operations of the `sfs`
repository (site/allele frequency spectra): shape and stride arithmetic,
the fold transform, marginalization, hypergeometric projection, and the
site-accumulation reader classification.

Modelling conventions:

* `Shape`, `Strides`, `Count` and multi-indices are `List Nat`.
* The `f64` cell values of arrays and spectra are modelled as exact
  rationals (`ℚ`); the repository only requires exact arithmetic on the
  inputs considered in the claims (small integers and halves), where
  `f64` arithmetic is itself exact.
* Fallible operations return `Option`/`Except`; a Rust panic reachable on
  some input is modelled as `Except.error`.
-/

namespace Spec2Proof

/-- `Shape::elements` (src/core/src/array/shape.rs): product of dimension sizes. -/
def elementsOf (shape : List Nat) : Nat := shape.prod

/-- Loop body of `Shape::index_from_flat_unchecked` (src/core/src/array/shape.rs):
`n` starts at `elements()`; for each dimension size `v`, the code does
`n /= v; index[i] = flat / n; flat %= n`. -/
def indexFromFlatAux : List Nat → Nat → Nat → List Nat
  | [], _, _ => []
  | v :: rest, n, flat =>
    let m := n / v
    flat / m :: indexFromFlatAux rest m (flat % m)

/-- `Shape::index_from_flat_unchecked` (src/core/src/array/shape.rs). -/
def index_from_flat_unchecked (shape : List Nat) (flat : Nat) : List Nat :=
  indexFromFlatAux shape (elementsOf shape) flat

/-- Loop body of `Shape::index_sum_from_flat_unchecked` (src/core/src/array/shape.rs):
same loop as `index_from_flat_unchecked`, but summing `flat / n` instead of
collecting it. -/
def indexSumFromFlatAux : List Nat → Nat → Nat → Nat
  | [], _, _ => 0
  | v :: rest, n, flat =>
    let m := n / v
    flat / m + indexSumFromFlatAux rest m (flat % m)

/-- `Shape::index_sum_from_flat_unchecked` (src/core/src/array/shape.rs). -/
def index_sum_from_flat_unchecked (shape : List Nat) (flat : Nat) : Nat :=
  indexSumFromFlatAux shape (elementsOf shape) flat

/-- `Shape::strides` (src/core/src/array/shape.rs): the in-place loop computes
row-major strides, i.e. `strides[i] = shape[i+1] * ... * shape[n-1]`; this is
that closed form, structurally recursive on the shape. -/
def stridesOf : List Nat → List Nat
  | [] => []
  | _ :: rest => elementsOf rest :: stridesOf rest

/-- `Strides::flat_index_unchecked` (src/sfs/src/shape/strides.rs):
fold of `flat + stride * idx` over the zipped strides and index. -/
def flat_index_unchecked (strides index : List Nat) : Nat :=
  (strides.zip index).foldl (fun flat p => flat + p.1 * p.2) 0

/-- `Strides::flat_index` (src/sfs/src/shape/strides.rs): checks that the
dimensions of strides, shape and index agree and that every index component
is in bounds, then delegates to `flat_index_unchecked`. -/
def flat_index (strides shape index : List Nat) : Option Nat :=
  if strides.length = shape.length ∧ shape.length = index.length then
    if (index.zip shape).all (fun p => decide (p.1 < p.2)) then
      some (flat_index_unchecked strides index)
    else
      none
  else
    none

example : index_from_flat_unchecked [3, 3, 4] 35 = [2, 2, 3] := by decide
example : index_from_flat_unchecked [3, 3, 4] 4 = [0, 1, 0] := by decide
example : stridesOf [6, 3, 7] = [21, 7, 1] := by decide
example : flat_index (stridesOf [5, 4, 9, 2]) [5, 4, 9, 2] [4, 3, 8, 1] = some 359 := by decide
example : flat_index (stridesOf [5, 4, 9, 2]) [5, 4, 9, 2] [5, 3, 8, 1] = none := by decide

theorem elementsOf_nil : elementsOf [] = 1 := rfl

theorem elementsOf_cons (v : Nat) (rest : List Nat) :
    elementsOf (v :: rest) = v * elementsOf rest := by
  simp [elementsOf]

theorem elementsOf_pos (shape : List Nat) (h : ∀ x ∈ shape, 1 ≤ x) :
    1 ≤ elementsOf shape := by
  induction shape with
  | nil => simp [elementsOf]
  | cons v rest ih =>
    rw [elementsOf_cons]
    have hv := h v (List.mem_cons_self v rest)
    have hrest := ih (fun x hx => h x (List.mem_cons_of_mem v hx))
    exact Nat.one_le_iff_ne_zero.mpr (Nat.mul_ne_zero
      (Nat.one_le_iff_ne_zero.mp hv) (Nat.one_le_iff_ne_zero.mp hrest))

theorem index_from_flat_cons (v : Nat) (rest : List Nat) (f : Nat) (hv : 1 ≤ v) :
    index_from_flat_unchecked (v :: rest) f =
      f / elementsOf rest :: index_from_flat_unchecked rest (f % elementsOf rest) := by
  unfold index_from_flat_unchecked
  rw [elementsOf_cons]
  simp only [indexFromFlatAux]
  rw [Nat.mul_div_cancel_left _ hv]

theorem foldl_add_init (l : List (Nat × Nat)) (a : Nat) :
    l.foldl (fun flat p => flat + p.1 * p.2) a =
      a + l.foldl (fun flat p => flat + p.1 * p.2) 0 := by
  induction l generalizing a with
  | nil => simp
  | cons p rest ih =>
    simp only [List.foldl_cons]
    rw [ih (a + p.1 * p.2), ih (0 + p.1 * p.2)]
    ring

theorem flat_index_unchecked_nil : flat_index_unchecked [] [] = 0 := rfl

theorem flat_index_unchecked_cons (s i : Nat) (ss is : List Nat) :
    flat_index_unchecked (s :: ss) (i :: is) = s * i + flat_index_unchecked ss is := by
  unfold flat_index_unchecked
  simp only [List.zip_cons_cons, List.foldl_cons]
  rw [foldl_add_init]
  ring_nf

theorem stridesOf_length (shape : List Nat) : (stridesOf shape).length = shape.length := by
  induction shape with
  | nil => rfl
  | cons v rest ih => simp [stridesOf, ih]

theorem index_from_flat_length (shape : List Nat) (f : Nat) :
    (index_from_flat_unchecked shape f).length = shape.length := by
  unfold index_from_flat_unchecked
  generalize elementsOf shape = n
  induction shape generalizing n f with
  | nil => rfl
  | cons v rest ih => simp [indexFromFlatAux, ih]

/-- Combined round-trip: mapping a flat offset to a multi-index and back through
the strides recovers the offset, and the multi-index is in bounds componentwise. -/
theorem round_trip_core (shape : List Nat) (f : Nat)
    (hpos : ∀ x ∈ shape, 1 ≤ x) (hf : f < elementsOf shape) :
    flat_index_unchecked (stridesOf shape) (index_from_flat_unchecked shape f) = f ∧
      List.Forall₂ (· < ·) (index_from_flat_unchecked shape f) shape := by
  induction shape generalizing f with
  | nil =>
    have : f = 0 := Nat.lt_one_iff.mp hf
    subst this
    exact ⟨rfl, List.Forall₂.nil⟩
  | cons v rest ih =>
    have hv : 1 ≤ v := hpos v (List.mem_cons_self v rest)
    have hrestpos : ∀ x ∈ rest, 1 ≤ x := fun x hx => hpos x (List.mem_cons_of_mem v hx)
    have hE : 1 ≤ elementsOf rest := elementsOf_pos rest hrestpos
    rw [elementsOf_cons] at hf
    have hq : f / elementsOf rest < v := by
      rw [Nat.div_lt_iff_lt_mul (Nat.lt_of_lt_of_le Nat.zero_lt_one hE)]
      omega
    have hr : f % elementsOf rest < elementsOf rest :=
      Nat.mod_lt _ (Nat.lt_of_lt_of_le Nat.zero_lt_one hE)
    obtain ⟨ihflat, ihbound⟩ := ih (f % elementsOf rest) hrestpos hr
    rw [index_from_flat_cons v rest f hv]
    constructor
    · show flat_index_unchecked (elementsOf rest :: stridesOf rest) _ = f
      rw [flat_index_unchecked_cons, ihflat]
      exact Nat.div_add_mod f (elementsOf rest)
    · exact List.Forall₂.cons hq ihbound

theorem forall₂_lt_all_zip (l1 l2 : List Nat) (h : List.Forall₂ (· < ·) l1 l2) :
    (l1.zip l2).all (fun p => decide (p.1 < p.2)) = true := by
  induction h with
  | nil => rfl
  | cons hab _ ih =>
    simp only [List.zip_cons_cons, List.all_cons, ih, Bool.and_true, decide_eq_true_eq]
    exact hab

/-- C7: For every valid `Shape` (all entries at least 1) and every flat offset
`f < elements()`, converting `f` to a multi-index via
`Shape::index_from_flat_unchecked` and mapping that index back through the
row-major strides (`Strides::flat_index`) yields `some f`, and the
intermediate index is in bounds in every component. -/
theorem flat_index_round_trip (shape : List Nat) (f : Nat)
    (hpos : ∀ x ∈ shape, 1 ≤ x) (hf : f < elementsOf shape) :
    flat_index (stridesOf shape) shape (index_from_flat_unchecked shape f) = some f ∧
      List.Forall₂ (· < ·) (index_from_flat_unchecked shape f) shape := by
  obtain ⟨hflat, hbound⟩ := round_trip_core shape f hpos hf
  refine ⟨?_, hbound⟩
  unfold flat_index
  rw [if_pos ⟨stridesOf_length shape, (index_from_flat_length shape f).symm⟩,
    if_pos (forall₂_lt_all_zip _ _ hbound), hflat]

/-- Witness for C7 at shape `[3, 3, 4]` and flat offset `35`. -/
theorem flat_index_round_trip_witness :
    flat_index (stridesOf [3, 3, 4]) [3, 3, 4] (index_from_flat_unchecked [3, 3, 4] 35) =
        some 35 ∧
      List.Forall₂ (· < ·) (index_from_flat_unchecked [3, 3, 4] 35) [3, 3, 4] :=
  flat_index_round_trip [3, 3, 4] 35 (by decide) (by decide)

/-! ## Fold transform (src/core/src/spectrum/folded.rs) -/

/-- `Scs::from_range` (src/core/src/spectrum.rs): range spectrum `0..n`,
with each value cast to a float. -/
def scsFromRange (n : Nat) : List ℚ :=
  (List.range n).map (fun v => (v : ℚ))

/-- `Folded::from_spectrum` (src/core/src/spectrum/folded.rs): the "lower"
triangle is `none`. `total_count` is `shape.iter().sum() - shape.len()`,
`mid_count = total_count / 2`, `has_diagonal = total_count % 2 == 0`; cell `i`
is paired with `rev_i = n - 1 - i` via the reversed flat iterator. -/
def foldedFromSpectrum (data : List ℚ) (shape : List Nat) : List (Option ℚ) :=
  let n := data.length
  let total_count := shape.sum - shape.length
  let mid_count := total_count / 2
  let has_diagonal := total_count % 2 == 0
  (List.range n).map (fun i =>
    let rev_i := n - 1 - i
    let count := index_sum_from_flat_unchecked shape i
    match compare count mid_count, has_diagonal with
    | .lt, _ | .eq, false => some (data.getD i 0 + data.getD rev_i 0)
    | .eq, true => some ((1 / 2 : ℚ) * data.getD i 0 + (1 / 2 : ℚ) * data.getD rev_i 0)
    | .gt, _ => none)

/-- `Folded::into_spectrum` (src/core/src/spectrum/folded.rs): replace the
folded-away (`none`) cells by the caller-chosen fill value. -/
def into_spectrum (folded : List (Option ℚ)) (fill : ℚ) : List ℚ :=
  folded.map (fun o => o.getD fill)

/-- `spectrum.fold().into_spectrum(fill)` composed. -/
def fold_into_spectrum (data : List ℚ) (shape : List Nat) (fill : ℚ) : List ℚ :=
  into_spectrum (foldedFromSpectrum data shape) fill

/-- The folded cell value as the spec describes it (claim C1): with `n` the
number of elements, `rev_i = n-1-i`, `count` the coordinate-sum of the
multi-index of `i`, `total_count = Σ (shape[d] - 1)`, `mid = total_count / 2`
and `has_diagonal` iff `total_count` is even. Stated from the spec's words,
for comparison against the code-derived `fold_into_spectrum`. -/
def foldSpecCell (data : List ℚ) (shape : List Nat) (fill : ℚ) (i : Nat) : ℚ :=
  let n := data.length
  let rev_i := n - 1 - i
  let count := (index_from_flat_unchecked shape i).sum
  let total_count := (shape.map (fun d => d - 1)).sum
  let mid := total_count / 2
  let has_diagonal := total_count % 2 = 0
  if count < mid ∨ (count = mid ∧ ¬has_diagonal) then
    data.getD i 0 + data.getD rev_i 0
  else if count = mid ∧ has_diagonal then
    (1 / 2 : ℚ) * data.getD i 0 + (1 / 2 : ℚ) * data.getD rev_i 0
  else
    fill

example :
    fold_into_spectrum (scsFromRange 9) [3, 3] 0 = [8, 8, 4, 8, 4, 0, 4, 0, 0] := by
  norm_num [fold_into_spectrum, into_spectrum, foldedFromSpectrum, scsFromRange,
    index_sum_from_flat_unchecked, indexSumFromFlatAux, elementsOf, List.range_succ,
    compare, compareOfLessAndEq, instOrdNat]

theorem indexSumAux_eq_sum (shape : List Nat) (n flat : Nat) :
    indexSumFromFlatAux shape n flat = (indexFromFlatAux shape n flat).sum := by
  induction shape generalizing n flat with
  | nil => rfl
  | cons v rest ih => simp [indexSumFromFlatAux, indexFromFlatAux, ih]

theorem index_sum_eq_sum_index (shape : List Nat) (flat : Nat) :
    index_sum_from_flat_unchecked shape flat = (index_from_flat_unchecked shape flat).sum :=
  indexSumAux_eq_sum shape (elementsOf shape) flat

theorem length_le_sum (shape : List Nat) (hpos : ∀ x ∈ shape, 1 ≤ x) :
    shape.length ≤ shape.sum := by
  induction shape with
  | nil => simp
  | cons v rest ih =>
    have hv := hpos v (List.mem_cons_self v rest)
    have := ih (fun x hx => hpos x (List.mem_cons_of_mem v hx))
    simp only [List.length_cons, List.sum_cons]
    omega

theorem total_count_eq (shape : List Nat) (hpos : ∀ x ∈ shape, 1 ≤ x) :
    shape.sum - shape.length = (shape.map (fun d => d - 1)).sum := by
  induction shape with
  | nil => simp
  | cons v rest ih =>
    have hv := hpos v (List.mem_cons_self v rest)
    have hrest := fun x hx => hpos x (List.mem_cons_of_mem v hx)
    have hle := length_le_sum rest hrest
    simp only [List.sum_cons, List.length_cons, List.map_cons]
    rw [← ih hrest]
    omega

theorem getD_map_range {α : Type} [Inhabited α] (n i : Nat) (f : Nat → α) (hi : i < n)
    (d : α) : ((List.range n).map f).getD i d = f i := by
  rw [List.getD_eq_getElem _ _ (by simpa using hi)]
  simp

/-- C1: folding a spectrum and unfolding with a fill value gives, at every flat
row-major position `i`: `src[i] + src[rev_i]` strictly above the fold line (or
on it when no diagonal exists), the half-weighted `0.5*src[i] + 0.5*src[rev_i]`
on the diagonal, and the fill value below the line; in particular the 1-D range
spectra `0..4` (shape 4, fill 0) and `0..5` (shape 5, fill -1) fold to
`[3, 3, 0, 0]` and `[4, 4, 2, -1, -1]`. -/
theorem fold_into_spectrum_spec (data : List ℚ) (shape : List Nat) (fill : ℚ) (i : Nat)
    (hpos : ∀ x ∈ shape, 1 ≤ x) (hi : i < data.length) :
    (fold_into_spectrum data shape fill).getD i 0 = foldSpecCell data shape fill i ∧
      fold_into_spectrum (scsFromRange 4) [4] 0 = [3, 3, 0, 0] ∧
      fold_into_spectrum (scsFromRange 5) [5] (-1) = [4, 4, 2, -1, -1] := by
  refine ⟨?_, ?_, ?_⟩
  case refine_2 =>
    norm_num [fold_into_spectrum, into_spectrum, foldedFromSpectrum, scsFromRange,
      index_sum_from_flat_unchecked, indexSumFromFlatAux, elementsOf, List.range_succ,
      compare, compareOfLessAndEq, instOrdNat]
    all_goals rfl
  case refine_3 =>
    norm_num [fold_into_spectrum, into_spectrum, foldedFromSpectrum, scsFromRange,
      index_sum_from_flat_unchecked, indexSumFromFlatAux, elementsOf, List.range_succ,
      compare, compareOfLessAndEq, instOrdNat]
  case refine_1 =>
    simp only [fold_into_spectrum, into_spectrum, foldedFromSpectrum, foldSpecCell,
      List.map_map]
    rw [getD_map_range _ _ _ hi]
    simp only [Function.comp_apply, index_sum_eq_sum_index, ← total_count_eq shape hpos]
    have hdiag : ((shape.sum - shape.length) % 2 == 0) = true ∨
        ((shape.sum - shape.length) % 2 == 0) = false := by
      rcases Bool.dichotomy ((shape.sum - shape.length) % 2 == 0) with h | h
      · exact Or.inr h
      · exact Or.inl h
    rcases Nat.lt_trichotomy ((index_from_flat_unchecked shape i).sum)
        ((shape.sum - shape.length) / 2) with hlt | heq | hgt
    · rw [Nat.compare_eq_lt.mpr hlt, if_pos (Or.inl hlt)]
      rcases hdiag with hd | hd <;> rw [hd] <;> rfl
    · rw [Nat.compare_eq_eq.mpr heq]
      rcases hdiag with hd | hd <;> rw [hd]
      · have hd' : (shape.sum - shape.length) % 2 = 0 := by simpa using hd
        rw [if_neg, if_pos ⟨heq, hd'⟩]
        · rfl
        · rintro (h | ⟨-, h2⟩)
          · exact absurd heq (Nat.ne_of_lt h)
          · exact h2 hd'
      · have hd' : ¬(shape.sum - shape.length) % 2 = 0 := by simpa using hd
        rw [if_pos (Or.inr ⟨heq, hd'⟩)]
        rfl
    · rw [Nat.compare_eq_gt.mpr hgt]
      have hne : ¬((index_from_flat_unchecked shape i).sum <
            (shape.sum - shape.length) / 2 ∨
          ((index_from_flat_unchecked shape i).sum = (shape.sum - shape.length) / 2 ∧
            ¬(shape.sum - shape.length) % 2 = 0)) := by
        rintro (h | ⟨h, -⟩)
        · exact absurd h (Nat.lt_asymm hgt)
        · exact absurd h (Nat.ne_of_gt hgt)
      have hne2 : ¬((index_from_flat_unchecked shape i).sum =
            (shape.sum - shape.length) / 2 ∧ (shape.sum - shape.length) % 2 = 0) := by
        rintro ⟨h, -⟩
        exact absurd h (Nat.ne_of_gt hgt)
      rw [if_neg hne, if_neg hne2]
      rcases hdiag with hd | hd <;> rw [hd] <;> rfl

/-- Witness for C1 at the range spectrum `0..5` of shape `[5]`, fill `-1`, cell 1. -/
theorem fold_into_spectrum_spec_witness :
    (fold_into_spectrum (scsFromRange 5) [5] (-1)).getD 1 0 =
        foldSpecCell (scsFromRange 5) [5] (-1) 1 ∧
      fold_into_spectrum (scsFromRange 4) [4] 0 = [3, 3, 0, 0] ∧
      fold_into_spectrum (scsFromRange 5) [5] (-1) = [4, 4, 2, -1, -1] :=
  fold_into_spectrum_spec (scsFromRange 5) [5] (-1) 1 (by decide) (by decide)

/-! ## Array axis views (src/core/src/array.rs, src/core/src/array/view.rs) -/

/-- `RemovedAxis` as a list (src/sfs/src/shape/removed_axis.rs): iteration
chains `inner[..removed]` with `inner[removed + 1..]`. -/
def removeAxis (l : List Nat) (axis : Nat) : List Nat :=
  l.take axis ++ l.drop (axis + 1)

/-- The elements of a `View` in row-major order
(src/core/src/array/view/iter.rs): the recursive carry iterator visits the
indices of the reduced shape in row-major order and reads the buffer cell at
`offset + Σ strides[d] * index[d]`; this is that closed form. -/
def viewElems (data : List ℚ) (offset : Nat) (shape strides : List Nat) : List ℚ :=
  (List.range (elementsOf shape)).map (fun f =>
    data.getD (offset + flat_index_unchecked strides (index_from_flat_unchecked shape f)) 0)

/-- `Array::get_axis` (src/core/src/array.rs:94-105). The guard is
`axis.0 > self.dimensions() || index >= self.shape[axis.0]` with a
short-circuiting `||`: when `axis.0 = self.dimensions()` the first disjunct is
false and `self.shape[axis.0]` indexes one past the end of the shape vector,
which panics; the panic is modelled as `Except.error ()`. (The in-bounds branch
slices `&self.data[offset..]`, which cannot panic under the array invariant
`data.len() == shape.elements()`.) -/
def get_axis (data : List ℚ) (shape : List Nat) (axis index : Nat) :
    Except Unit (Option (List ℚ × List Nat)) :=
  if axis > shape.length then .ok none
  else
    match shape.get? axis with
    | none => .error ()
    | some s =>
      if index ≥ s then .ok none
      else
        let strides := stridesOf shape
        let offset := index * strides.getD axis 0
        .ok (some (viewElems data offset (removeAxis shape axis) (removeAxis strides axis),
          removeAxis shape axis))

example : get_axis (scsFromRange 4) [2, 2] 1 0 = .ok (some ([0, 2], [2])) := by
  norm_num [get_axis, viewElems, removeAxis, stridesOf, elementsOf, scsFromRange,
    flat_index_unchecked, index_from_flat_unchecked, indexFromFlatAux, List.range_succ]

example : get_axis (scsFromRange 4) [2, 2] 0 1 = .ok (some ([2, 3], [2])) := by
  norm_num [get_axis, viewElems, removeAxis, stridesOf, elementsOf, scsFromRange,
    flat_index_unchecked, index_from_flat_unchecked, indexFromFlatAux, List.range_succ]

/-- C5 (code bug): the claim (and the function's own doc comment) says
`get_axis` returns `None` whenever the axis is out of bounds, and that no input
panics through this path. The guard `axis.0 > self.dimensions()` uses `>`
instead of `>=`, so for `axis == dimensions()` the code falls through to
`self.shape[axis.0]` and panics with an index out of bounds. On a 1-D array of
shape `[1]`, axis 1 panics (modelled `error`), while axis 2 returns `None`. -/
theorem get_axis_panics_on_axis_eq_dimensions :
    get_axis [(0 : ℚ)] [1] 1 0 = .error () ∧
      get_axis [(0 : ℚ)] [1] 2 0 = .ok none := by
  constructor <;> rfl

/-! ## Marginalization (src/core/src/spectrum.rs, src/core/src/array.rs) -/

/-- `Array::sum` (src/core/src/array.rs:223-231): fold over the views along
`axis` (each obtained as `get_axis(axis, i)` for `i` below `shape[axis]`),
adding each view elementwise into a zero-initialised array of the reduced
shape; cell `f` of the result is the sum over `i` of cell `f` of view `i`. -/
def sumAxisData (data : List ℚ) (shape : List Nat) (axis : Nat) : List ℚ :=
  let strides := stridesOf shape
  let shape' := removeAxis shape axis
  let strides' := removeAxis strides axis
  (List.range (elementsOf shape')).map (fun f =>
    ((List.range (shape.getD axis 0)).map (fun i =>
      (viewElems data (i * strides.getD axis 0) shape' strides').getD f 0)).sum)

example : sumAxisData (scsFromRange 9) [3, 3] 0 = [9, 12, 15] := by
  norm_num [sumAxisData, viewElems, removeAxis, stridesOf, elementsOf, scsFromRange,
    flat_index_unchecked, index_from_flat_unchecked, indexFromFlatAux, List.range_succ]

example : sumAxisData (scsFromRange 9) [3, 3] 1 = [3, 12, 21] := by
  norm_num [sumAxisData, viewElems, removeAxis, stridesOf, elementsOf, scsFromRange,
    flat_index_unchecked, index_from_flat_unchecked, indexFromFlatAux, List.range_succ]

/-- An error associated with marginalizing a spectrum
(src/core/src/spectrum.rs). -/
inductive MarginalizationError
  | duplicateAxis (axis : Nat)
  | axisOutOfBounds (axis dimensions : Nat)
  | tooManyAxes (axes dimensions : Nat)
  deriving DecidableEq

/-- The duplicate scan of `Spectrum::marginalize`
(src/core/src/spectrum.rs:144-149): the first axis whose tail contains it. -/
def findDuplicate : List Nat → Option Nat
  | [] => none
  | a :: rest => if rest.contains a then some a else findDuplicate rest

/-- `axes.windows(2).all(|w| w[0] <= w[1])` (src/core/src/spectrum.rs:165). -/
def isSortedLe : List Nat → Bool
  | [] => true
  | [_] => true
  | a :: b :: rest => decide (a ≤ b) && isSortedLe (b :: rest)

/-- `Spectrum::marginalize_unchecked` (src/core/src/spectrum.rs:179-192):
each axis is shifted down by the number of axes already removed, then
`marginalize_axis` (i.e. `Array::sum` and the reduced shape) is applied. -/
def marginalize_unchecked (data : List ℚ) (shape : List Nat) (axes : List Nat) :
    List ℚ × List Nat :=
  (axes.enum.map (fun p => p.2 - p.1)).foldl
    (fun acc axis => (sumAxisData acc.1 acc.2 axis, removeAxis acc.2 axis)) (data, shape)

/-- `Spectrum::marginalize` (src/core/src/spectrum.rs:143-173): reject a
duplicated axis, then an axis out of bounds, then too many axes; otherwise
marginalize the axes in sorted order (sorting only if not already sorted). -/
def marginalize (data : List ℚ) (shape : List Nat) (axes : List Nat) :
    Except MarginalizationError (List ℚ × List Nat) :=
  match findDuplicate axes with
  | some a => .error (.duplicateAxis a)
  | none =>
    match axes.find? (fun a => decide (shape.length ≤ a)) with
    | some a => .error (.axisOutOfBounds a shape.length)
    | none =>
      if shape.length ≤ axes.length then
        .error (.tooManyAxes axes.length shape.length)
      else if isSortedLe axes then
        .ok (marginalize_unchecked data shape axes)
      else
        .ok (marginalize_unchecked data shape (axes.insertionSort (· ≤ ·)))

theorem contains_true_iff (l : List Nat) (a : Nat) : l.contains a = true ↔ a ∈ l := by
  simp [List.contains, List.elem_iff]

theorem findDuplicate_eq_none_iff (axes : List Nat) :
    findDuplicate axes = none ↔ axes.Nodup := by
  induction axes with
  | nil => simp [findDuplicate]
  | cons a rest ih =>
    by_cases h : rest.contains a = true
    · have hmem : a ∈ rest := (contains_true_iff rest a).mp h
      simp only [findDuplicate, if_pos h, List.nodup_cons]
      simp [hmem]
    · have hmem : a ∉ rest := fun hm => h ((contains_true_iff rest a).mpr hm)
      simp only [findDuplicate, if_neg h, List.nodup_cons, ih]
      simp [hmem]

theorem sorted_of_isSortedLe (l : List Nat) (h : isSortedLe l = true) :
    List.Sorted (· ≤ ·) l := by
  induction l with
  | nil => exact List.sorted_nil
  | cons a rest ih =>
    cases rest with
    | nil => exact List.sorted_singleton a
    | cons b rest2 =>
      simp only [isSortedLe, Bool.and_eq_true, decide_eq_true_eq] at h
      obtain ⟨hab, hrest⟩ := h
      have hs := ih hrest
      rw [List.sorted_cons]
      refine ⟨?_, hs⟩
      intro x hx
      rcases List.mem_cons.mp hx with rfl | hx2
      · exact hab
      · exact le_trans hab ((List.sorted_cons.mp hs).1 x hx2)

theorem insertionSort_eq_of_isSortedLe (l : List Nat) (h : isSortedLe l = true) :
    l.insertionSort (· ≤ ·) = l :=
  (sorted_of_isSortedLe l h).insertionSort_eq

/-- Under the validity conditions, `marginalize` takes the `Ok` path and is the
sorted-order marginalization (the explicit sort branch and the already-sorted
branch agree). -/
theorem marginalize_eq_ok_of_valid (data : List ℚ) (shape axes : List Nat)
    (hnodup : axes.Nodup) (hbound : ∀ a ∈ axes, a < shape.length)
    (hlen : axes.length < shape.length) :
    marginalize data shape axes =
      .ok (marginalize_unchecked data shape (axes.insertionSort (· ≤ ·))) := by
  unfold marginalize
  rw [(findDuplicate_eq_none_iff axes).mpr hnodup]
  have hoob : axes.find? (fun a => decide (shape.length ≤ a)) = none := by
    rw [List.find?_eq_none]
    intro a ha
    simpa using Nat.not_le.mpr (hbound a ha)
  rw [hoob]
  rw [if_neg (Nat.not_le.mpr hlen)]
  by_cases hs : isSortedLe axes = true
  · rw [if_pos hs, insertionSort_eq_of_isSortedLe axes hs]
  · rw [if_neg hs]

/-- C9: `marginalize` returns an error if and only if the axis list has a
duplicate, or an axis at least the dimensionality, or at least as many axes
as there are dimensions; in all other cases it returns `Ok` with the
marginalized spectrum. -/
theorem marginalize_error_iff (data : List ℚ) (shape axes : List Nat) :
    ((∃ e, marginalize data shape axes = .error e) ↔
      (¬axes.Nodup ∨ (∃ a ∈ axes, shape.length ≤ a) ∨ shape.length ≤ axes.length)) ∧
      (¬(¬axes.Nodup ∨ (∃ a ∈ axes, shape.length ≤ a) ∨ shape.length ≤ axes.length) →
        ∃ r, marginalize data shape axes = .ok r) := by
  have hok : ∀ (hnodup : axes.Nodup) (hbound : ∀ a ∈ axes, a < shape.length)
      (hlen : axes.length < shape.length),
      ∃ r, marginalize data shape axes = .ok r :=
    fun hnodup hbound hlen =>
      ⟨_, marginalize_eq_ok_of_valid data shape axes hnodup hbound hlen⟩
  constructor
  · constructor
    · rintro ⟨e, he⟩
      by_contra hbad
      push_neg at hbad
      obtain ⟨hnodup, hbound, hlen⟩ := hbad
      obtain ⟨r, hr⟩ := hok hnodup hbound hlen
      rw [hr] at he
      exact Except.noConfusion he
    · rintro (hdup | ⟨a, ha, hge⟩ | hlen)
      · obtain ⟨a, hsome⟩ : ∃ a, findDuplicate axes = some a := by
          have : findDuplicate axes ≠ none := fun hn =>
            hdup ((findDuplicate_eq_none_iff axes).mp hn)
          exact Option.ne_none_iff_exists'.mp this
        refine ⟨.duplicateAxis a, ?_⟩
        unfold marginalize
        rw [hsome]
      · by_cases hdup : axes.Nodup
        · obtain ⟨b, hsome⟩ : ∃ b, axes.find? (fun a => decide (shape.length ≤ a)) = some b := by
            have : axes.find? (fun a => decide (shape.length ≤ a)) ≠ none := by
              intro hn
              exact absurd (by simpa using hge) (by simpa using List.find?_eq_none.mp hn a ha)
            exact Option.ne_none_iff_exists'.mp this
          refine ⟨.axisOutOfBounds b shape.length, ?_⟩
          unfold marginalize
          rw [(findDuplicate_eq_none_iff axes).mpr hdup, hsome]
        · obtain ⟨a2, hsome⟩ : ∃ a2, findDuplicate axes = some a2 := by
            have : findDuplicate axes ≠ none := fun hn =>
              hdup ((findDuplicate_eq_none_iff axes).mp hn)
            exact Option.ne_none_iff_exists'.mp this
          refine ⟨.duplicateAxis a2, ?_⟩
          unfold marginalize
          rw [hsome]
      · by_cases hdup : axes.Nodup
        · by_cases hoobp : ∃ a ∈ axes, shape.length ≤ a
          · obtain ⟨a, ha, hge⟩ := hoobp
            obtain ⟨b, hsome⟩ :
                ∃ b, axes.find? (fun a => decide (shape.length ≤ a)) = some b := by
              have : axes.find? (fun a => decide (shape.length ≤ a)) ≠ none := by
                intro hn
                exact absurd (by simpa using hge)
                  (by simpa using List.find?_eq_none.mp hn a ha)
              exact Option.ne_none_iff_exists'.mp this
            refine ⟨.axisOutOfBounds b shape.length, ?_⟩
            unfold marginalize
            rw [(findDuplicate_eq_none_iff axes).mpr hdup, hsome]
          · push_neg at hoobp
            have hoob : axes.find? (fun a => decide (shape.length ≤ a)) = none := by
              rw [List.find?_eq_none]
              intro a ha
              simpa using Nat.not_le.mpr (hoobp a ha)
            refine ⟨.tooManyAxes axes.length shape.length, ?_⟩
            unfold marginalize
            rw [(findDuplicate_eq_none_iff axes).mpr hdup, hoob, if_pos hlen]
        · obtain ⟨a2, hsome⟩ : ∃ a2, findDuplicate axes = some a2 := by
            have : findDuplicate axes ≠ none := fun hn =>
              hdup ((findDuplicate_eq_none_iff axes).mp hn)
            exact Option.ne_none_iff_exists'.mp this
          refine ⟨.duplicateAxis a2, ?_⟩
          unfold marginalize
          rw [hsome]
  · intro h
    push_neg at h
    obtain ⟨hnodup, hbound, hlen⟩ := h
    exact hok hnodup hbound hlen

/-- Witness instance for C9 at the 3x3 range spectrum with axes `[0, 1]`
(too many axes: marginalizing down to zero dimensions is rejected). -/
theorem marginalize_error_iff_witness :
    ((∃ e, marginalize (scsFromRange 9) [3, 3] [0, 1] = .error e) ↔
      (¬([0, 1] : List Nat).Nodup ∨ (∃ a ∈ ([0, 1] : List Nat), ([3, 3] : List Nat).length ≤ a) ∨
        ([3, 3] : List Nat).length ≤ ([0, 1] : List Nat).length)) ∧
      (¬(¬([0, 1] : List Nat).Nodup ∨
          (∃ a ∈ ([0, 1] : List Nat), ([3, 3] : List Nat).length ≤ a) ∨
          ([3, 3] : List Nat).length ≤ ([0, 1] : List Nat).length) →
        ∃ r, marginalize (scsFromRange 9) [3, 3] [0, 1] = .ok r) :=
  marginalize_error_iff (scsFromRange 9) [3, 3] [0, 1]

/-- C6: for every spectrum and every valid axis list (distinct, in-bounds,
fewer axes than dimensions), `marginalize` gives the same result for every
permutation of the list: the axes are sorted ascending and removed lowest to
highest with each subsequent axis re-indexed down by the number already
removed; in particular axes `{0, 2}` and `{2, 0}` on the 3x3x3 range spectrum
`0..27` both yield `[90, 117, 144]`. -/
theorem marginalize_perm_invariant (data : List ℚ) (shape : List Nat)
    (axes1 axes2 : List Nat) (hperm : axes1.Perm axes2) (hnodup : axes1.Nodup)
    (hbound : ∀ a ∈ axes1, a < shape.length) (hlen : axes1.length < shape.length) :
    marginalize data shape axes1 = marginalize data shape axes2 ∧
      marginalize (scsFromRange 27) [3, 3, 3] [0, 2] = .ok ([90, 117, 144], [3]) ∧
      marginalize (scsFromRange 27) [3, 3, 3] [2, 0] = .ok ([90, 117, 144], [3]) := by
  refine ⟨?_, ?_, ?_⟩
  case refine_1 =>
    have hnodup2 : axes2.Nodup := hperm.nodup_iff.mp hnodup
    have hbound2 : ∀ a ∈ axes2, a < shape.length := fun a ha =>
      hbound a (hperm.mem_iff.mpr ha)
    have hlen2 : axes2.length < shape.length := hperm.length_eq ▸ hlen
    rw [marginalize_eq_ok_of_valid data shape axes1 hnodup hbound hlen,
      marginalize_eq_ok_of_valid data shape axes2 hnodup2 hbound2 hlen2]
    have hsorteq : axes1.insertionSort (· ≤ ·) = axes2.insertionSort (· ≤ ·) :=
      List.eq_of_perm_of_sorted
        ((List.perm_insertionSort _ axes1).trans
          (hperm.trans (List.perm_insertionSort _ axes2).symm))
        (List.sorted_insertionSort _ axes1) (List.sorted_insertionSort _ axes2)
    rw [hsorteq]
  case refine_2 =>
    norm_num [marginalize, marginalize_unchecked, sumAxisData,
      viewElems, removeAxis, stridesOf, elementsOf, scsFromRange, flat_index_unchecked,
      index_from_flat_unchecked, indexFromFlatAux, List.range_succ, List.enum,
      List.enumFrom,
      show findDuplicate [0, 2] = none from by decide,
      show List.find? (fun a => decide ((3 : Nat) ≤ a)) [0, 2] = none from by decide,
      show isSortedLe [0, 2] = true from by decide]
  case refine_3 =>
    norm_num [marginalize, marginalize_unchecked, sumAxisData,
      viewElems, removeAxis, stridesOf, elementsOf, scsFromRange, flat_index_unchecked,
      index_from_flat_unchecked, indexFromFlatAux, List.range_succ, List.enum,
      List.enumFrom,
      show findDuplicate [2, 0] = none from by decide,
      show List.find? (fun a => decide ((3 : Nat) ≤ a)) [2, 0] = none from by decide,
      show isSortedLe [2, 0] = false from by decide,
      show List.insertionSort (fun a b => a ≤ b) [2, 0] = [0, 2] from by decide]

/-- Witness for C6 at the 3x3x3 range spectrum with axis lists `[0, 2]` and `[2, 0]`. -/
theorem marginalize_perm_invariant_witness :
    marginalize (scsFromRange 27) [3, 3, 3] [0, 2] =
        marginalize (scsFromRange 27) [3, 3, 3] [2, 0] ∧
      marginalize (scsFromRange 27) [3, 3, 3] [0, 2] = .ok ([90, 117, 144], [3]) ∧
      marginalize (scsFromRange 27) [3, 3, 3] [2, 0] = .ok ([90, 117, 144], [3]) :=
  marginalize_perm_invariant (scsFromRange 27) [3, 3, 3] [0, 2] [2, 0]
    (by decide) (by decide) (by decide) (by decide)

/-! ## Hypergeometric distribution
(src/core/src/spectrum/project/hypergeometric.rs) -/

/-- `binomial` (src/core/src/spectrum/project/hypergeometric.rs:16-22): `0.0`
if `k > n`, otherwise `C(n, k)` computed as
`floor(0.5 + exp(ln_factorial n - ln_factorial k - ln_factorial (n - k)))`.
`ln_factorial` is exact (a memoized table) for arguments up to 170 and a
Lanczos log-gamma above; on the exact range the rounding recovers the integer
binomial coefficient, and the float computation is modelled by that exact
value `Nat.choose n k` (which is also `0` for `k > n`, matching the guard). -/
def binomial (n k : Nat) : ℚ :=
  if k > n then 0 else (n.choose k : ℚ)

/-- `pmf_unchecked` (src/core/src/spectrum/project/hypergeometric.rs:7-14). -/
def pmf_unchecked (size successes draws observed : Nat) : ℚ :=
  if observed > draws then 0
  else
    binomial successes observed * binomial (size - successes) (draws - observed)
      / binomial size draws

theorem binomial_eq_choose (n k : Nat) : binomial n k = (n.choose k : ℚ) := by
  unfold binomial
  by_cases h : k > n
  · rw [if_pos h, Nat.choose_eq_zero_of_lt h, Nat.cast_zero]
  · rw [if_neg h]

/-- C3: the one-dimensional hypergeometric PMF is
`C(successes, observed) * C(size - successes, draws - observed) / C(size, draws)`,
and `0` whenever `observed > draws`; the binomial coefficients are computed
exactly (memoized factorial table for arguments up to 170, log-gamma above).
Projecting a source count of 2 out of 6 source alleles down to 2 target
alleles yields the PMF vector `[0.4, 0.533333, 0.066667]`, summing to 1. -/
theorem pmf_unchecked_spec (size successes draws observed : Nat)
    (_hs : successes ≤ size) (_hd : draws ≤ size) :
    (observed > draws → pmf_unchecked size successes draws observed = 0) ∧
      (observed ≤ draws → pmf_unchecked size successes draws observed =
        (successes.choose observed : ℚ) *
            ((size - successes).choose (draws - observed) : ℚ) /
          (size.choose draws : ℚ)) ∧
      pmf_unchecked 6 2 2 0 = 0.4 ∧
      |pmf_unchecked 6 2 2 1 - 0.533333| ≤ 1 / 1000000 ∧
      |pmf_unchecked 6 2 2 2 - 0.066667| ≤ 1 / 1000000 ∧
      pmf_unchecked 6 2 2 0 + pmf_unchecked 6 2 2 1 + pmf_unchecked 6 2 2 2 = 1 := by
  have heval : ∀ a b : Nat, a ≤ 6 → b ≤ 6 → binomial a b = (a.choose b : ℚ) :=
    fun a b _ _ => binomial_eq_choose a b
  refine ⟨?_, ?_, ?_, ?_, ?_, ?_⟩
  · intro h
    unfold pmf_unchecked
    rw [if_pos h]
  · intro h
    unfold pmf_unchecked
    rw [if_neg (Nat.not_lt.mpr h), binomial_eq_choose, binomial_eq_choose,
      binomial_eq_choose]
  · norm_num [pmf_unchecked, binomial,
      show ((2 : Nat).choose 0) = 1 from by decide,
      show ((4 : Nat).choose 2) = 6 from by decide,
      show ((6 : Nat).choose 2) = 15 from by decide]
  · norm_num [pmf_unchecked, binomial,
      show ((2 : Nat).choose 1) = 2 from by decide,
      show ((4 : Nat).choose 1) = 4 from by decide,
      show ((6 : Nat).choose 2) = 15 from by decide]
    rw [abs_le]
    constructor <;> norm_num
  · norm_num [pmf_unchecked, binomial,
      show ((2 : Nat).choose 2) = 1 from by decide,
      show ((4 : Nat).choose 0) = 1 from by decide,
      show ((6 : Nat).choose 2) = 15 from by decide]
    rw [abs_le]
    constructor <;> norm_num
  · norm_num [pmf_unchecked, binomial,
      show ((2 : Nat).choose 0) = 1 from by decide,
      show ((4 : Nat).choose 2) = 6 from by decide,
      show ((2 : Nat).choose 1) = 2 from by decide,
      show ((4 : Nat).choose 1) = 4 from by decide,
      show ((2 : Nat).choose 2) = 1 from by decide,
      show ((4 : Nat).choose 0) = 1 from by decide,
      show ((6 : Nat).choose 2) = 15 from by decide]

/-- Witness for C3 at `size = 6`, `successes = 2`, `draws = 2`, `observed = 1`. -/
theorem pmf_unchecked_spec_witness :
    ((1 : Nat) > 2 → pmf_unchecked 6 2 2 1 = 0) ∧
      ((1 : Nat) ≤ 2 → pmf_unchecked 6 2 2 1 =
        ((2 : Nat).choose 1 : ℚ) * (((6 : Nat) - 2).choose (2 - 1) : ℚ) /
          ((6 : Nat).choose 2 : ℚ)) ∧
      pmf_unchecked 6 2 2 0 = 0.4 ∧
      |pmf_unchecked 6 2 2 1 - 0.533333| ≤ 1 / 1000000 ∧
      |pmf_unchecked 6 2 2 2 - 0.066667| ≤ 1 / 1000000 ∧
      pmf_unchecked 6 2 2 0 + pmf_unchecked 6 2 2 1 + pmf_unchecked 6 2 2 2 = 1 :=
  pmf_unchecked_spec 6 2 2 1 (by decide) (by decide)

/-! ## Full-spectrum projection (src/core/src/spectrum.rs,
src/core/src/spectrum/project.rs) -/

/-- `ProjectIter::project_value` (src/core/src/spectrum/project.rs:210-225):
the joint PMF is the product over dimensions of the one-dimensional PMFs with
`size = project_from[d]`, `successes = from[d]`, `draws = project_to[d]`,
`observed = to[d]` (the fold multiplies in ℚ, where association is
immaterial). -/
def jointPmf : List Nat → List Nat → List Nat → List Nat → ℚ
  | size :: sizes, succ :: succs, draw :: draws, obs :: obss =>
    pmf_unchecked size succ draw obs * jointPmf sizes succs draws obss
  | _, _, _, _ => 1

/-- `ProjectIter` as a list (src/core/src/spectrum/project.rs:163-234): target
counts start at all-zeros and the innermost axis is incremented with carry,
bounded inclusively by `project_to[d]`; that is the row-major enumeration of
the index space of shape `project_to[d] + 1`, yielding the joint PMF at each
target count. -/
def projectValues (projectFrom source projectTo : List Nat) : List ℚ :=
  (List.range (elementsOf (projectTo.map (· + 1)))).map (fun f =>
    jointPmf projectFrom source projectTo
      (index_from_flat_unchecked (projectTo.map (· + 1)) f))

/-- `Projected::add_unchecked` after `into_weighted`
(src/core/src/spectrum/project.rs:137-160): elementwise
`to += projected * weight` over the zip of output cells and iterator values. -/
def add_unchecked (acc projected : List ℚ) (weight : ℚ) : List ℚ :=
  List.zipWith (fun t p => t + p * weight) acc projected

/-- `Count::try_from_shape` (src/core/src/spectrum/count.rs:17-23): checked
subtraction of 1 from every entry; `None` if any entry is zero. -/
def try_from_shape : List Nat → Option (List Nat)
  | [] => some []
  | x :: rest =>
    if x = 0 then none
    else (try_from_shape rest).map (fun r => (x - 1) :: r)

/-- `ProjectionError` (src/core/src/spectrum/project.rs:236-249). -/
inductive ProjectionError
  | empty
  | invalidProjection (dimension source target : Nat)
  | unequalDimensions (source target : Nat)
  | zero
  deriving DecidableEq

/-- `Projection::new` (src/core/src/spectrum/project.rs:80-110): with equal
dimensions, the first dimension whose source count is below the target count is
an `InvalidProjection` error; zero dimensions (with unequal lengths) is
`Empty`; unequal dimensions is `UnequalDimensions`. -/
def projectionNew (projectFrom projectTo : List Nat) :
    Except ProjectionError (List Nat × List Nat) :=
  if projectFrom.length = projectTo.length then
    match (projectFrom.zip projectTo).enum.find? (fun p => decide (p.2.1 < p.2.2)) with
    | some p => .error (.invalidProjection p.1 p.2.1 p.2.2)
    | none => .ok (projectFrom, projectTo)
  else if projectFrom.length = 0 then .error .empty
  else .error (.unequalDimensions projectFrom.length projectTo.length)

/-- `Spectrum::project` (src/core/src/spectrum.rs:237-253):
`Projection::from_shapes` validates the shapes (`Zero` if either shape has a
zero entry, then `Projection::new`); the output starts at zeros of the target
shape and, for each source position in row-major order, the weighted projected
values are added elementwise. -/
def spectrum_project (data : List ℚ) (shape projectToShape : List Nat) :
    Except ProjectionError (List ℚ × List Nat) :=
  match try_from_shape shape, try_from_shape projectToShape with
  | some pf, some pt =>
    match projectionNew pf pt with
    | .error e => .error e
    | .ok _ =>
      .ok ((List.range (elementsOf shape)).foldl (fun acc f =>
          add_unchecked acc (projectValues pf (index_from_flat_unchecked shape f) pt)
            (data.getD f 0))
          (List.replicate (elementsOf projectToShape) 0),
        projectToShape)
  | _, _ => .error .zero

example :
    spectrum_project (scsFromRange 7) [7] [3] = .ok ([7 / 3, 7, 35 / 3], [3]) := by
  norm_num [spectrum_project, try_from_shape, projectionNew, projectValues, jointPmf,
    add_unchecked, pmf_unchecked, binomial, scsFromRange, elementsOf,
    index_from_flat_unchecked, indexFromFlatAux, List.range_succ, List.enum,
    List.enumFrom, List.replicate_succ, List.zipWith_cons_cons,
    show ((6 : Nat).choose 2) = 15 from by decide,
    show ((6 : Nat).choose 1) = 6 from by decide,
    show ((6 : Nat).choose 0) = 1 from by decide,
    show ((5 : Nat).choose 2) = 10 from by decide,
    show ((5 : Nat).choose 1) = 5 from by decide,
    show ((4 : Nat).choose 2) = 6 from by decide,
    show ((4 : Nat).choose 1) = 4 from by decide,
    show ((3 : Nat).choose 2) = 3 from by decide,
    show ((2 : Nat).choose 2) = 1 from by decide,
    show ((2 : Nat).choose 1) = 2 from by decide,
    show ((3 : Nat).choose 1) = 3 from by decide]

example :
    spectrum_project (scsFromRange 9) [3, 3] [2, 2] = .ok ([3, 6, 12, 15], [2, 2]) := by
  norm_num [spectrum_project, try_from_shape, projectionNew, projectValues, jointPmf,
    add_unchecked, pmf_unchecked, binomial, scsFromRange, elementsOf,
    index_from_flat_unchecked, indexFromFlatAux, List.range_succ, List.enum,
    List.enumFrom, List.replicate_succ, List.zipWith_cons_cons,
    show ((2 : Nat).choose 2) = 1 from by decide,
    show ((2 : Nat).choose 1) = 2 from by decide,
    show ((2 : Nat).choose 0) = 1 from by decide,
    show ((1 : Nat).choose 1) = 1 from by decide,
    show ((1 : Nat).choose 0) = 1 from by decide,
    show ((0 : Nat).choose 0) = 1 from by decide]

theorem list_map_range_sum (n : Nat) (f : Nat → ℚ) :
    ((List.range n).map f).sum = ∑ i in Finset.range n, f i := by
  induction n with
  | zero => simp
  | succ n ih =>
    rw [List.range_succ, List.map_append, List.sum_append, Finset.sum_range_succ, ih]
    simp

theorem sum_range_mul_split (m E : Nat) (h : Nat → ℚ) :
    ∑ f in Finset.range (E * m), h f =
      ∑ q in Finset.range m, ∑ r in Finset.range E, h (E * q + r) := by
  induction m with
  | zero => simp
  | succ m ih =>
    rw [Nat.mul_succ, Finset.range_add, Finset.sum_union, Finset.sum_map, ih,
      Finset.sum_range_succ]
    · simp [addLeftEmbedding]
    · simp only [Finset.disjoint_left, Finset.mem_range, Finset.mem_map,
        addLeftEmbedding_apply, not_exists]
      intro a ha b _
      omega

/-- The one-dimensional PMF sums to 1 over the possible observed counts
(Vandermonde's identity). -/
theorem pmf_sum_one (size s draw : Nat) (hsucc : s ≤ size) (hdraw : draw ≤ size) :
    ∑ obs in Finset.range (draw + 1), pmf_unchecked size s draw obs = 1 := by
  have hchoose : (0 : ℚ) < (size.choose draw : ℚ) := by
    exact_mod_cast Nat.choose_pos hdraw
  have hstep : ∀ obs ∈ Finset.range (draw + 1),
      pmf_unchecked size s draw obs =
        ((s.choose obs : ℚ) * ((size - s).choose (draw - obs) : ℚ)) /
          (size.choose draw : ℚ) := by
    intro obs hobs
    simp only [Finset.mem_range] at hobs
    unfold pmf_unchecked
    rw [if_neg (by omega), binomial_eq_choose, binomial_eq_choose, binomial_eq_choose]
  rw [Finset.sum_congr rfl hstep, ← Finset.sum_div,
    div_eq_one_iff_eq (ne_of_gt hchoose)]
  have hv := Nat.add_choose_eq s (size - s) draw
  rw [Nat.add_sub_cancel' hsucc, Finset.Nat.sum_antidiagonal_eq_sum_range_succ_mk] at hv
  rw [show ∀ a b : ℚ, a = b ↔ b = a from fun a b => eq_comm]
  push_cast [hv]
  rfl

theorem forall₂_le_of_lt_map_sub (idx shape : List Nat)
    (h : List.Forall₂ (· < ·) idx shape) :
    List.Forall₂ (· ≤ ·) idx (shape.map (fun x => x - 1)) := by
  induction h with
  | nil => exact List.Forall₂.nil
  | cons hab _ ih =>
    exact List.Forall₂.cons (Nat.le_pred_of_lt hab) ih

theorem forall₂_le_map_sub (a b : List Nat) (h : List.Forall₂ (· ≤ ·) a b) :
    List.Forall₂ (· ≤ ·) (a.map (fun x => x - 1)) (b.map (fun x => x - 1)) := by
  induction h with
  | nil => exact List.Forall₂.nil
  | cons hab _ ih => exact List.Forall₂.cons (Nat.sub_le_sub_right hab 1) ih

theorem pos_of_forall₂_le (pt sh : List Nat) (h : List.Forall₂ (· ≤ ·) pt sh)
    (hpos : ∀ y ∈ pt, 1 ≤ y) : ∀ x ∈ sh, 1 ≤ x := by
  induction h with
  | nil => intro x hx; cases hx
  | cons hab htail ih =>
    intro x hx
    rcases List.mem_cons.mp hx with rfl | hx2
    · exact le_trans (hpos _ (List.mem_cons_self _ _)) hab
    · exact ih (fun y hy => hpos y (List.mem_cons_of_mem _ hy)) x hx2

theorem map_sub_one_add_one (s : List Nat) (h : ∀ x ∈ s, 1 ≤ x) :
    (s.map (fun x => x - 1)).map (· + 1) = s := by
  induction s with
  | nil => rfl
  | cons x rest ih =>
    have hx := h x (List.mem_cons_self x rest)
    simp only [List.map_cons, List.cons.injEq]
    exact ⟨by omega, ih (fun y hy => h y (List.mem_cons_of_mem x hy))⟩

/-- The full projection iterator for one source count sums to 1: the joint PMF
factorizes over dimensions and each per-dimension PMF sums to 1. -/
theorem projectValues_sum_one :
    ∀ (projectFrom source projectTo : List Nat),
      List.Forall₂ (· ≤ ·) source projectFrom →
      List.Forall₂ (· ≤ ·) projectTo projectFrom →
      (projectValues projectFrom source projectTo).sum = 1 := by
  intro pf
  induction pf with
  | nil =>
    intro source pt h1 h2
    cases h1
    cases h2
    simp [projectValues, elementsOf, jointPmf, List.range_succ]
  | cons sz pfs ih =>
    intro source pt h1 h2
    cases h1 with
    | cons hc h1tail =>
      cases h2 with
      | cons hd h2tail =>
        rename_i c cs d ds
        have hEpos : ∀ x ∈ ds.map (· + 1), 1 ≤ x := by
          intro x hx
          obtain ⟨y, -, rfl⟩ := List.mem_map.mp hx
          omega
        have hE : 1 ≤ elementsOf (ds.map (· + 1)) := elementsOf_pos _ hEpos
        unfold projectValues
        rw [list_map_range_sum]
        have hsh : (d :: ds).map (· + 1) = (d + 1) :: ds.map (· + 1) := rfl
        rw [hsh, elementsOf_cons, Nat.mul_comm, sum_range_mul_split]
        have hterm : ∀ q ∈ Finset.range (d + 1), ∀ r ∈ Finset.range (elementsOf (ds.map (· + 1))),
            jointPmf (sz :: pfs) (c :: cs) (d :: ds)
              (index_from_flat_unchecked ((d + 1) :: ds.map (· + 1))
                (elementsOf (ds.map (· + 1)) * q + r)) =
              pmf_unchecked sz c d q *
                jointPmf pfs cs ds (index_from_flat_unchecked (ds.map (· + 1)) r) := by
          intro q _ r hr
          simp only [Finset.mem_range] at hr
          rw [index_from_flat_cons _ _ _ (by omega)]
          rw [Nat.mul_add_div (by omega), Nat.div_eq_of_lt hr, Nat.add_zero,
            Nat.mul_add_mod, Nat.mod_eq_of_lt hr]
          rfl
        rw [Finset.sum_congr rfl (fun q hq => Finset.sum_congr rfl (hterm q hq))]
        rw [← Finset.sum_mul_sum]
        rw [pmf_sum_one sz c d hc hd]
        have hih := ih cs ds h1tail h2tail
        unfold projectValues at hih
        rw [list_map_range_sum] at hih
        rw [hih, one_mul]

theorem add_unchecked_length (acc ps : List ℚ) (w : ℚ) (h : ps.length = acc.length) :
    (add_unchecked acc ps w).length = acc.length := by
  simp [add_unchecked, h]

theorem add_unchecked_sum (acc ps : List ℚ) (w : ℚ) (h : ps.length = acc.length) :
    (add_unchecked acc ps w).sum = acc.sum + w * ps.sum := by
  induction acc generalizing ps with
  | nil =>
    cases ps with
    | nil => simp [add_unchecked]
    | cons p pstail => simp at h
  | cons a as ih =>
    cases ps with
    | nil => simp at h
    | cons p pstail =>
      simp only [add_unchecked, List.zipWith_cons_cons, List.sum_cons]
      have := ih pstail (by simpa using h)
      unfold add_unchecked at this
      rw [this]
      ring

theorem fold_add_unchecked (rows : Nat → List ℚ) (w : Nat → ℚ) (N : Nat)
    (hrow : ∀ f, (rows f).length = N) :
    ∀ (fs : List Nat) (acc : List ℚ), acc.length = N →
      (fs.foldl (fun a f => add_unchecked a (rows f) (w f)) acc).length = N ∧
        (fs.foldl (fun a f => add_unchecked a (rows f) (w f)) acc).sum =
          acc.sum + (fs.map (fun f => w f * (rows f).sum)).sum := by
  intro fs
  induction fs with
  | nil =>
    intro acc hacc
    exact ⟨hacc, by simp⟩
  | cons f fstail ih =>
    intro acc hacc
    have hlen : (add_unchecked acc (rows f) (w f)).length = N := by
      rw [add_unchecked_length _ _ _ (by rw [hrow f, hacc])]
      exact hacc
    obtain ⟨ihlen, ihsum⟩ := ih (add_unchecked acc (rows f) (w f)) hlen
    refine ⟨ihlen, ?_⟩
    simp only [List.foldl_cons, List.map_cons, List.sum_cons]
    rw [ihsum, add_unchecked_sum _ _ _ (by rw [hrow f, hacc])]
    ring

theorem try_from_shape_of_pos (s : List Nat) (h : ∀ x ∈ s, 1 ≤ x) :
    try_from_shape s = some (s.map (fun x => x - 1)) := by
  induction s with
  | nil => rfl
  | cons x rest ih =>
    have hx : 1 ≤ x := h x (List.mem_cons_self x rest)
    simp only [try_from_shape, if_neg (by omega : ¬x = 0),
      ih (fun y hy => h y (List.mem_cons_of_mem x hy)), List.map_cons]
    rfl

theorem snd_mem_of_mem_enumFrom {α : Type} (l : List α) :
    ∀ (n : Nat) (x : Nat × α), x ∈ l.enumFrom n → x.2 ∈ l := by
  induction l with
  | nil => intro n x hx; cases hx
  | cons a rest ih =>
    intro n x hx
    rcases List.mem_cons.mp hx with rfl | hx2
    · exact List.mem_cons_self a rest
    · exact List.mem_cons_of_mem a (ih (n + 1) x hx2)

theorem zip_snd_le_fst (pf pt : List Nat) (h : List.Forall₂ (· ≤ ·) pt pf) :
    ∀ x ∈ pf.zip pt, x.2 ≤ x.1 := by
  induction h with
  | nil => intro x hx; cases hx
  | cons hab _ ih =>
    intro x hx
    rcases List.mem_cons.mp hx with rfl | hx2
    · exact hab
    · exact ih x hx2

theorem projectionNew_ok (pf pt : List Nat) (hlen : pf.length = pt.length)
    (hle : List.Forall₂ (· ≤ ·) pt pf) :
    projectionNew pf pt = .ok (pf, pt) := by
  unfold projectionNew
  rw [if_pos hlen]
  have hfind : (pf.zip pt).enum.find? (fun p => decide (p.2.1 < p.2.2)) = none := by
    rw [List.find?_eq_none]
    intro p hp
    have hmem : p.2 ∈ pf.zip pt := snd_mem_of_mem_enumFrom _ 0 p hp
    have := zip_snd_le_fst pf pt hle p.2 hmem
    simpa using Nat.not_lt.mpr this
  rw [hfind]

theorem sum_getD_range (l : List ℚ) :
    ((List.range l.length).map (fun f => l.getD f 0)).sum = l.sum := by
  induction l with
  | nil => simp
  | cons a rest ih =>
    rw [List.length_cons, List.range_succ_eq_map, List.map_cons, List.map_map,
      List.sum_cons, List.getD_cons_zero]
    have : (List.map ((fun f => (a :: rest).getD f 0) ∘ Nat.succ) (List.range rest.length)) =
        List.map (fun f => rest.getD f 0) (List.range rest.length) := by
      apply List.map_congr_left
      intro b _
      simp [List.getD_cons_succ]
    rw [this, ih, List.sum_cons]

/-- C8: for every count spectrum and every valid target shape (same
dimensionality, each target dimension at most the source dimension, no zero
entries), `project` succeeds and the sum of all cells of the projected
spectrum equals the sum of all cells of the source spectrum. -/
theorem project_preserves_sum (data : List ℚ) (shape projectTo : List Nat)
    (hlen : data.length = elementsOf shape)
    (hdim : shape.length = projectTo.length)
    (hle : List.Forall₂ (· ≤ ·) projectTo shape)
    (hpos : ∀ x ∈ projectTo, 1 ≤ x) :
    ∃ res, spectrum_project data shape projectTo = .ok (res, projectTo) ∧
      res.sum = data.sum := by
  have hshapepos : ∀ x ∈ shape, 1 ≤ x := pos_of_forall₂_le projectTo shape hle hpos
  have hle' : List.Forall₂ (· ≤ ·) (projectTo.map (fun x => x - 1))
      (shape.map (fun x => x - 1)) := forall₂_le_map_sub _ _ hle
  have hptshape : ((projectTo.map (fun x => x - 1)).map (· + 1)) = projectTo :=
    map_sub_one_add_one projectTo hpos
  have hrow : ∀ f, (projectValues (shape.map (fun x => x - 1))
      (index_from_flat_unchecked shape f) (projectTo.map (fun x => x - 1))).length =
      elementsOf projectTo := by
    intro f
    unfold projectValues
    rw [List.length_map, List.length_range, hptshape]
  have hmain := fold_add_unchecked
    (fun f => projectValues (shape.map (fun x => x - 1))
      (index_from_flat_unchecked shape f) (projectTo.map (fun x => x - 1)))
    (fun f => data.getD f 0) (elementsOf projectTo) hrow
    (List.range (elementsOf shape)) (List.replicate (elementsOf projectTo) 0)
    (by rw [List.length_replicate])
  obtain ⟨-, hsum⟩ := hmain
  unfold spectrum_project
  simp only [try_from_shape_of_pos shape hshapepos, try_from_shape_of_pos projectTo hpos,
    projectionNew_ok _ _ (by rw [List.length_map, List.length_map, hdim]) hle']
  refine ⟨_, rfl, ?_⟩
  rw [hsum, List.sum_replicate, smul_zero, zero_add]
  have hrows_one : ∀ f ∈ List.range (elementsOf shape),
      (fun f => data.getD f 0 * (projectValues (shape.map (fun x => x - 1))
        (index_from_flat_unchecked shape f) (projectTo.map (fun x => x - 1))).sum) f =
        (fun f => data.getD f 0) f := by
    intro f hf
    have hflt : f < elementsOf shape := List.mem_range.mp hf
    have hbound := (round_trip_core shape f hshapepos hflt).2
    have h1 := projectValues_sum_one (shape.map (fun x => x - 1))
      (index_from_flat_unchecked shape f) (projectTo.map (fun x => x - 1))
      (forall₂_le_of_lt_map_sub _ _ hbound) hle'
    simp only [h1, mul_one]
  rw [List.map_congr_left hrows_one, ← hlen, sum_getD_range]

/-- Witness for C8 at the 3x3 range spectrum projected to 2x2. -/
theorem project_preserves_sum_witness :
    ∃ res, spectrum_project (scsFromRange 9) [3, 3] [2, 2] = .ok (res, [2, 2]) ∧
      res.sum = (scsFromRange 9).sum :=
  project_preserves_sum (scsFromRange 9) [3, 3] [2, 2] (by rfl)
    (by decide) (List.Forall₂.cons (by decide) (List.Forall₂.cons (by decide)
      List.Forall₂.nil)) (by decide)

/-! ## Site reader and runner (src/core/src/input/genotype.rs,
src/core/src/input/site.rs, src/core/src/input/site/reader.rs,
src/sfs/src/create/runner.rs) -/

/-- `Genotype` (src/core/src/input/genotype.rs): diploid, diallelic genotype,
coded as the number of derived alleles. -/
inductive Genotype
  | zero
  | one
  | two
  deriving DecidableEq

/-- The `genotype as u8 as usize` dosage. -/
def Genotype.dosage : Genotype → Nat
  | .zero => 0
  | .one => 1
  | .two => 2

/-- `genotype::Skipped` (src/core/src/input/genotype.rs). -/
inductive Skipped
  | missing
  | multiallelic
  deriving DecidableEq

/-- `genotype::Error` (src/core/src/input/genotype.rs): genotype not diploid. -/
inductive GenotypeError
  | ploidyError
  deriving DecidableEq

/-- `genotype::Result` (src/core/src/input/genotype.rs). -/
inductive GenotypeResult
  | genotype (g : Genotype)
  | skipped (s : Skipped)
  | error (e : GenotypeError)
  deriving DecidableEq

/-- Whether a genotype result is a skip (missing or multiallelic). -/
def GenotypeResult.isSkip : GenotypeResult → Bool
  | .skipped _ => true
  | _ => false

/-- Whether a genotype result is a structural genotype error (wrong ploidy). -/
def GenotypeResult.isGenotypeError : GenotypeResult → Bool
  | .error _ => true
  | _ => false

/-- `counts[population_id] += amount` on a `Count` vector. The reader
constructs `counts`/`totals` with one entry per population and the sample map
yields only in-range population ids, so the Rust indexing cannot panic there;
an out-of-range set is a no-op in the model. -/
def bump (l : List Nat) (i amount : Nat) : List Nat :=
  l.set i (l.getD i 0 + amount)

/-- The per-sample loop of `Reader::read_site`
(src/core/src/input/site/reader.rs:84-103), over the zip of the reader's
samples with the genotype results: a sample outside the population map is
ignored; a realized genotype adds its dosage to `counts` and 2 to `totals`
for its population; a skipped genotype is recorded against its sample; a
genotype error aborts the read with an `InvalidData` I/O error. -/
def processSite (sampleMap : Nat → Option Nat) :
    List (Nat × GenotypeResult) → List Nat → List Nat → List (Nat × Skipped) →
      Except Unit (List Nat × List Nat × List (Nat × Skipped))
  | [], counts, totals, skipped => .ok (counts, totals, skipped)
  | (sample, g) :: rest, counts, totals, skipped =>
    match sampleMap sample with
    | none => processSite sampleMap rest counts totals skipped
    | some pid =>
      match g with
      | .genotype gt =>
        processSite sampleMap rest (bump counts pid gt.dosage) (bump totals pid 2) skipped
      | .skipped sk => processSite sampleMap rest counts totals (skipped ++ [(sample, sk)])
      | .error _ => .error ()

/-- `Site` (src/core/src/input/site.rs). The `Projected` variant carries the
`(totals, counts)` pair passed to `projection.project_unchecked(&self.totals,
&self.counts)`, i.e. the per-population observed totals (projection sizes) and
derived-allele counts (successes), each target cell receiving its joint-PMF
weight. -/
inductive Site
  | standard (counts : List Nat)
  | projected (totals counts : List Nat)
  | insufficientData
  deriving DecidableEq

/-- `ReadStatus` (src/core/src/input.rs). -/
inductive ReadStatus (α : Type)
  | read (a : α)
  | error
  | done
  deriving DecidableEq

/-- The site classification of `Reader::read_site`
(src/core/src/input/site/reader.rs:105-124): with a projection, the fold over
the zipped totals and target sizes computes `exact` (all equal) and
`projectable` (all at least the target); without a projection, the site is
standard iff no mapped sample was skipped. -/
def classify (projection : Option (List Nat)) (counts totals : List Nat)
    (skipped : List (Nat × Skipped)) : Site :=
  match projection with
  | some projectTo =>
    let flags := (totals.zip projectTo).foldl
      (fun (p : Bool × Bool) (q : Nat × Nat) =>
        (p.1 && q.1 == q.2, p.2 && decide (q.2 ≤ q.1))) (true, true)
    if flags.1 then .standard counts
    else if flags.2 then .projected totals counts
    else .insufficientData
  | none =>
    if skipped.isEmpty then .standard counts else .insufficientData

/-- `Reader::read_site` (src/core/src/input/site/reader.rs:75-127) on one
site's genotype vector (zipped with the sample names), from freshly reset
accumulators with one entry per population. -/
def readSite (sampleMap : Nat → Option Nat) (dims : Nat)
    (projection : Option (List Nat)) (input : List (Nat × GenotypeResult)) :
    ReadStatus Site :=
  match processSite sampleMap input (List.replicate dims 0) (List.replicate dims 0) [] with
  | .error _ => .error
  | .ok (counts, totals, skipped) => .read (classify projection counts totals skipped)

/-- The outcome of one iteration of the `Runner::run` loop
(src/sfs/src/create/runner.rs:69-101). -/
inductive RunnerOutcome
  | accumulated
  | skippedSite
  | fatal
  | finished
  deriving DecidableEq

/-- One iteration of `Runner::run` (src/sfs/src/create/runner.rs:69-101): a
standard site increments the spectrum and a projected site adds its weighted
values (both accumulate); an insufficient-data site goes through
`handle_skipped_site`, which is fatal exactly in strict mode and otherwise
logs and counts the skip; a read error is fatal regardless of strict mode;
`Done` ends the loop. -/
def runnerStep (strict : Bool) : ReadStatus Site → RunnerOutcome
  | .read (.standard _) => .accumulated
  | .read (.projected _ _) => .accumulated
  | .read .insufficientData => if strict then .fatal else .skippedSite
  | .error => .fatal
  | .done => .finished

theorem readSite_ok (sm : Nat → Option Nat) (dims : Nat) (proj : Option (List Nat))
    (input : List (Nat × GenotypeResult)) (counts totals : List Nat)
    (skipped : List (Nat × Skipped))
    (hok : processSite sm input (List.replicate dims 0) (List.replicate dims 0) [] =
      .ok (counts, totals, skipped)) :
    readSite sm dims proj input = .read (classify proj counts totals skipped) := by
  unfold readSite
  rw [hok]

theorem classify_flags (l : List (Nat × Nat)) (b1 b2 : Bool) :
    l.foldl (fun (p : Bool × Bool) (q : Nat × Nat) =>
        (p.1 && q.1 == q.2, p.2 && decide (q.2 ≤ q.1))) (b1, b2) =
      (b1 && l.all (fun q => q.1 == q.2), b2 && l.all (fun q => decide (q.2 ≤ q.1))) := by
  induction l generalizing b1 b2 with
  | nil => simp
  | cons q rest ih =>
    simp only [List.foldl_cons, List.all_cons, ih, Bool.and_assoc]

theorem all_zip_eq_iff (a b : List Nat) (h : a.length = b.length) :
    ((a.zip b).all (fun q => q.1 == q.2) = true ↔
      ∀ i < b.length, a.getD i 0 = b.getD i 0) := by
  induction a generalizing b with
  | nil =>
    cases b with
    | nil => simp
    | cons y tb => simp at h
  | cons x ta ih =>
    cases b with
    | nil => simp at h
    | cons y tb =>
      simp only [List.zip_cons_cons, List.all_cons, Bool.and_eq_true, beq_iff_eq]
      rw [ih tb (by simpa using h)]
      constructor
      · rintro ⟨h0, hrest⟩ i hi
        cases i with
        | zero => simpa using h0
        | succ j => simpa using hrest j (by simpa using hi)
      · intro hall
        refine ⟨by simpa using hall 0 (by simp), fun j hj => ?_⟩
        simpa using hall (j + 1) (by simpa using hj)

theorem all_zip_ge_iff (a b : List Nat) (h : a.length = b.length) :
    ((a.zip b).all (fun q => decide (q.2 ≤ q.1)) = true ↔
      ∀ i < b.length, b.getD i 0 ≤ a.getD i 0) := by
  induction a generalizing b with
  | nil =>
    cases b with
    | nil => simp
    | cons y tb => simp at h
  | cons x ta ih =>
    cases b with
    | nil => simp at h
    | cons y tb =>
      simp only [List.zip_cons_cons, List.all_cons, Bool.and_eq_true, decide_eq_true_eq]
      rw [ih tb (by simpa using h)]
      constructor
      · rintro ⟨h0, hrest⟩ i hi
        cases i with
        | zero => simpa using h0
        | succ j => simpa using hrest j (by simpa using hi)
      · intro hall
        refine ⟨by simpa using hall 0 (by simp), fun j hj => ?_⟩
        simpa using hall (j + 1) (by simpa using hj)

/-- C2: with a projection configured, a site is `Standard` (used as-is, weight
1) iff every population's observed total equals the target size exactly;
`Projected` (joint-PMF distribution over target cells) iff it is not exact but
every observed total is at least the target size; and `InsufficientData`
(dropped) otherwise. -/
theorem read_site_projection_classification (sm : Nat → Option Nat) (dims : Nat)
    (projectTo : List Nat) (input : List (Nat × GenotypeResult))
    (counts totals : List Nat) (skipped : List (Nat × Skipped))
    (hok : processSite sm input (List.replicate dims 0) (List.replicate dims 0) [] =
      .ok (counts, totals, skipped))
    (hlen : totals.length = projectTo.length) :
    (readSite sm dims (some projectTo) input = .read (.standard counts) ↔
      ∀ i < projectTo.length, totals.getD i 0 = projectTo.getD i 0) ∧
      (readSite sm dims (some projectTo) input = .read (.projected totals counts) ↔
        ¬(∀ i < projectTo.length, totals.getD i 0 = projectTo.getD i 0) ∧
          ∀ i < projectTo.length, projectTo.getD i 0 ≤ totals.getD i 0) ∧
      (readSite sm dims (some projectTo) input = .read .insufficientData ↔
        ¬∀ i < projectTo.length, projectTo.getD i 0 ≤ totals.getD i 0) := by
  rw [readSite_ok sm dims (some projectTo) input counts totals skipped hok]
  have hclass : classify (some projectTo) counts totals skipped =
      if (totals.zip projectTo).all (fun q => q.1 == q.2) then Site.standard counts
      else if (totals.zip projectTo).all (fun q => decide (q.2 ≤ q.1)) then
        Site.projected totals counts
      else Site.insufficientData := by
    simp only [classify, classify_flags, Bool.true_and]
  rw [hclass]
  have hEqIff := all_zip_eq_iff totals projectTo hlen
  have hGeIff := all_zip_ge_iff totals projectTo hlen
  by_cases hP : ∀ i < projectTo.length, totals.getD i 0 = projectTo.getD i 0
  · have hQ : ∀ i < projectTo.length, projectTo.getD i 0 ≤ totals.getD i 0 :=
      fun i hi => le_of_eq (hP i hi).symm
    rw [if_pos (hEqIff.mpr hP)]
    exact ⟨iff_of_true rfl hP, iff_of_false (by simp) (fun h => h.1 hP),
      iff_of_false (by simp) (fun h => h hQ)⟩
  · rw [if_neg (fun hb => hP (hEqIff.mp hb))]
    by_cases hQ : ∀ i < projectTo.length, projectTo.getD i 0 ≤ totals.getD i 0
    · rw [if_pos (hGeIff.mpr hQ)]
      exact ⟨iff_of_false (by simp) hP, iff_of_true rfl ⟨hP, hQ⟩,
        iff_of_false (by simp) (fun h => h hQ)⟩
    · rw [if_neg (fun hb => hQ (hGeIff.mp hb))]
      exact ⟨iff_of_false (by simp) hP, iff_of_false (by simp) (fun h => hQ h.2),
        iff_of_true rfl hQ⟩

/-- Witness for C2: one population, target size 2, a single mapped sample with
one derived allele; the observed total (2) is exact, so the site is standard
with count vector `[1]`. -/
theorem read_site_projection_classification_witness :
    (readSite (fun _ => some 0) 1 (some [2]) [(0, .genotype .one)] =
        .read (.standard [1]) ↔
      ∀ i < [2].length, [2].getD i 0 = [2].getD i 0) ∧
      (readSite (fun _ => some 0) 1 (some [2]) [(0, .genotype .one)] =
          .read (.projected [2] [1]) ↔
        ¬(∀ i < [2].length, [2].getD i 0 = [2].getD i 0) ∧
          ∀ i < [2].length, [2].getD i 0 ≤ [2].getD i 0) ∧
      (readSite (fun _ => some 0) 1 (some [2]) [(0, .genotype .one)] =
          .read .insufficientData ↔
        ¬∀ i < [2].length, [2].getD i 0 ≤ [2].getD i 0) :=
  read_site_projection_classification (fun _ => some 0) 1 [2] [(0, .genotype .one)]
    [1] [2] [] (by rfl) (by decide)

/-- The skip records collected by the read loop: one entry per sample that is
in the population map and whose genotype is a skip, in input order. -/
def mappedSkips (sm : Nat → Option Nat) (input : List (Nat × GenotypeResult)) :
    List (Nat × Skipped) :=
  input.filterMap (fun p =>
    match sm p.1, p.2 with
    | some _, .skipped sk => some (p.1, sk)
    | _, _ => none)

theorem processSite_ok_skipped (sm : Nat → Option Nat) :
    ∀ (input : List (Nat × GenotypeResult)) (counts totals : List Nat)
      (sk : List (Nat × Skipped)) (counts' totals' : List Nat)
      (sk' : List (Nat × Skipped)),
      processSite sm input counts totals sk = .ok (counts', totals', sk') →
      sk' = sk ++ mappedSkips sm input := by
  intro input
  induction input with
  | nil =>
    intro counts totals sk counts' totals' sk' h
    simp only [processSite] at h
    injection h with h
    injection h with h1 h2
    injection h2 with h2 h3
    simp [mappedSkips, ← h3]
  | cons hd rest ih =>
    intro counts totals sk counts' totals' sk' h
    obtain ⟨sample, g⟩ := hd
    rcases hsm : sm sample with _ | pid
    · simp only [processSite, hsm] at h
      rw [ih _ _ _ _ _ _ h]
      simp [mappedSkips, List.filterMap_cons, hsm]
    · rcases g with g0 | sk0 | e
      · simp only [processSite, hsm] at h
        rw [ih _ _ _ _ _ _ h]
        simp [mappedSkips, List.filterMap_cons, hsm]
      · simp only [processSite, hsm] at h
        rw [ih _ _ _ _ _ _ h]
        simp [mappedSkips, List.filterMap_cons, hsm]
      · simp only [processSite, hsm] at h
        exact absurd h (by simp)

/-- C10: without a projection, a read site is `Standard` (with the accumulated
counts) if and only if no sample belonging to the population map was skipped
(missing or multiallelic) at the site; if at least one mapped sample was
skipped, the whole site is `InsufficientData` even though counts from the
realized samples were accumulated. -/
theorem read_site_no_projection_classification (sm : Nat → Option Nat) (dims : Nat)
    (input : List (Nat × GenotypeResult)) (counts totals : List Nat)
    (skipped : List (Nat × Skipped))
    (hok : processSite sm input (List.replicate dims 0) (List.replicate dims 0) [] =
      .ok (counts, totals, skipped)) :
    (readSite sm dims none input = .read (.standard counts) ↔
      ¬∃ p ∈ input, (sm p.1).isSome = true ∧ p.2.isSkip = true) ∧
      ((∃ p ∈ input, (sm p.1).isSome = true ∧ p.2.isSkip = true) →
        readSite sm dims none input = .read .insufficientData) := by
  rw [readSite_ok sm dims none input counts totals skipped hok]
  have hsk : skipped = mappedSkips sm input := by
    simpa using processSite_ok_skipped sm input _ _ _ _ _ _ hok
  have hiff : skipped.isEmpty = true ↔
      ¬∃ p ∈ input, (sm p.1).isSome = true ∧ p.2.isSkip = true := by
    rw [hsk, List.isEmpty_iff, mappedSkips, List.filterMap_eq_nil_iff]
    constructor
    · rintro hall ⟨p, hp, hsome, hskip⟩
      have := hall p hp
      rcases hsm : sm p.1 with _ | pid
      · rw [hsm] at hsome
        simp at hsome
      · rcases hg : p.2 with g0 | sk0 | e
        · rw [hg] at hskip
          simp [GenotypeResult.isSkip] at hskip
        · rw [hsm, hg] at this
          simp at this
        · rw [hg] at hskip
          simp [GenotypeResult.isSkip] at hskip
    · intro hne p hp
      rcases hsm : sm p.1 with _ | pid
      · simp [hsm]
      · rcases hg : p.2 with g0 | sk0 | e
        · simp [hsm, hg]
        · exact absurd ⟨p, hp, by simp [hsm], by simp [hg, GenotypeResult.isSkip]⟩ hne
        · simp [hsm, hg]
  by_cases hemp : skipped.isEmpty = true
  · have hcl : classify none counts totals skipped = Site.standard counts := by
      simp only [classify, if_pos hemp]
    rw [hcl]
    exact ⟨iff_of_true rfl (hiff.mp hemp), fun hex => absurd hex (hiff.mp hemp)⟩
  · have hcl : classify none counts totals skipped = Site.insufficientData := by
      simp only [classify, if_neg hemp]
    rw [hcl]
    have hex : ∃ p ∈ input, (sm p.1).isSome = true ∧ p.2.isSkip = true := by
      by_contra hno
      exact hemp (hiff.mpr hno)
    exact ⟨iff_of_false (by simp) (fun hno => hno hex), fun _ => rfl⟩

/-- Witness for C10: two samples both mapped to population 0, the first
skipped as missing, the second a realized two-dosage genotype; the counts are
accumulated but the site is insufficient data. -/
theorem read_site_no_projection_classification_witness :
    (readSite (fun _ => some 0) 1 none [(0, .skipped .missing), (1, .genotype .two)] =
        .read (.standard [2]) ↔
      ¬∃ p ∈ [((0 : Nat), GenotypeResult.skipped .missing), (1, .genotype .two)],
        (((fun _ => some 0) : Nat → Option Nat) p.1).isSome = true ∧ p.2.isSkip = true) ∧
      ((∃ p ∈ [((0 : Nat), GenotypeResult.skipped .missing), (1, .genotype .two)],
          (((fun _ => some 0) : Nat → Option Nat) p.1).isSome = true ∧ p.2.isSkip = true) →
        readSite (fun _ => some 0) 1 none
            [(0, .skipped .missing), (1, .genotype .two)] =
          .read .insufficientData) :=
  read_site_no_projection_classification (fun _ => some 0) 1
    [(0, .skipped .missing), (1, .genotype .two)] [2] [2] [(0, .missing)] (by rfl)

theorem processSite_error_of_mem (sm : Nat → Option Nat) :
    ∀ (input : List (Nat × GenotypeResult)) (counts totals : List Nat)
      (sk : List (Nat × Skipped)),
      (∃ p ∈ input, (sm p.1).isSome = true ∧ p.2.isGenotypeError = true) →
      processSite sm input counts totals sk = .error () := by
  intro input
  induction input with
  | nil =>
    rintro _ _ _ ⟨p, hp, -⟩
    cases hp
  | cons hd rest ih =>
    rintro counts totals sk hex
    obtain ⟨sample, g⟩ := hd
    rcases hsm : sm sample with _ | pid
    · simp only [processSite, hsm]
      apply ih
      obtain ⟨p, hp, hsome, herr⟩ := hex
      rcases List.mem_cons.mp hp with rfl | hrest
      · simp [hsm] at hsome
      · exact ⟨p, hrest, hsome, herr⟩
    · rcases g with g0 | sk0 | e
      · simp only [processSite, hsm]
        apply ih
        obtain ⟨p, hp, hsome, herr⟩ := hex
        rcases List.mem_cons.mp hp with rfl | hrest
        · simp [GenotypeResult.isGenotypeError] at herr
        · exact ⟨p, hrest, hsome, herr⟩
      · simp only [processSite, hsm]
        apply ih
        obtain ⟨p, hp, hsome, herr⟩ := hex
        rcases List.mem_cons.mp hp with rfl | hrest
        · simp [GenotypeResult.isGenotypeError] at herr
        · exact ⟨p, hrest, hsome, herr⟩
      · simp only [processSite, hsm]

/-- C4 counterexample: the claim says a structurally invalid genotype is fatal
only in strict mode and is downgraded to skip-and-count in non-strict (default)
mode. With `strict = false`, one population and a single mapped sample whose
genotype result is a ploidy error, the runner outcome is `fatal`, not the
skip-and-count outcome. -/
theorem genotype_error_fatal_in_non_strict_mode :
    runnerStep false
        (readSite (fun _ => some 0) 1 none [(0, .error .ploidyError)]) =
        RunnerOutcome.fatal ∧
      RunnerOutcome.fatal ≠ RunnerOutcome.skippedSite :=
  ⟨rfl, by decide⟩

/-- C4 (amended): a structurally invalid genotype result for a sample in the
population map makes `read_site` return an I/O-class error and aborts the
whole read in the runner, in strict and non-strict mode alike (strict mode
instead promotes insufficient-data site skips to fatal). -/
theorem genotype_error_always_fatal (strict : Bool) (sm : Nat → Option Nat)
    (dims : Nat) (proj : Option (List Nat)) (input : List (Nat × GenotypeResult))
    (herr : ∃ p ∈ input, (sm p.1).isSome = true ∧ p.2.isGenotypeError = true) :
    readSite sm dims proj input = .error ∧
      runnerStep strict (readSite sm dims proj input) = .fatal := by
  have h := processSite_error_of_mem sm input (List.replicate dims 0)
    (List.replicate dims 0) [] herr
  have h2 : readSite sm dims proj input = .error := by
    unfold readSite
    rw [h]
  rw [h2]
  exact ⟨rfl, rfl⟩

/-- Witness for the amended C4 in non-strict mode, at a single mapped
ploidy-error genotype. -/
theorem genotype_error_always_fatal_witness :
    readSite (fun _ => some 0) 1 none [(0, .error .ploidyError)] = .error ∧
      runnerStep false
          (readSite (fun _ => some 0) 1 none [(0, .error .ploidyError)]) =
        .fatal :=
  genotype_error_always_fatal false (fun _ => some 0) 1 none
    [(0, .error .ploidyError)] (by decide)

end Spec2Proof
